import Mathlib

/-!
Verification of the `mdio` crate: a bit-banged MDIO transport (`src/bb.rs`)
and the MIIM control-word composition layer (`src/miim.rs`).

The transport is shallowly embedded as a family of functions parametrised
over an environment `Env S E`: the Rust code is generic over an output pin
for the clock line, an input/output pin for the data line and a periodic
countdown timer, all with error type `E`.  The environment packages the
fallible collaborator operations as state transformers on an abstract world
state `S`.  Machine integers (`u8`, `u16`) are modelled as `Nat` with
explicit `% 256` masking where the Rust code converts between widths.

A concrete environment `traceEnv` records every pin and timer interaction
as an event list, so that claims about the order and number of line-level
operations become statements about the recorded trace.
-/

namespace MdioModel

/-- Observable interactions with the pin and timer collaborators. -/
inductive Ev : Type
  | mdioHigh
  | mdioLow
  | mdcHigh
  | mdcLow
  | sense : Bool → Ev
  | clkWait
deriving DecidableEq

/-- The collaborator interface used by the bit-banged transport, mirroring
the Rust trait bounds: the data pin supports fallible set-high, set-low and
is-high, the clock pin supports fallible set-high and set-low, and the
periodic timer offers a blocking wait whose completion result (success or
an error) is returned alongside the evolved world state. -/
structure Env (S E : Type) where
  mdioSetHigh : S → Except E S
  mdioSetLow : S → Except E S
  mdioIsHigh : S → Except E (Bool × S)
  mdcSetHigh : S → Except E S
  mdcSetLow : S → Except E S
  clkWait : S → Option E × S

variable {S E : Type}

/-- Embeds `Mdio::PREAMBLE_BITS`: the duration of the preamble in bits. -/
def PREAMBLE_BITS : Nat := 32

/-- Embeds `Mdio::wait_for_clk`: `block!(self.clk.wait()).ok();` blocks on
the timer and then discards the result, so the error component of
`clkWait` is dropped and only the evolved state is kept. -/
def wait_for_clk (env : Env S E) (s : S) : S :=
  (env.clkWait s).2

/-- Embeds `Mdio::pulse_clock`: wait, raise the clock line, wait, lower
the clock line; pin failures propagate. -/
def pulse_clock (env : Env S E) (s : S) : Except E S :=
  match env.mdcSetHigh (wait_for_clk env s) with
  | .error e => .error e
  | .ok s => env.mdcSetLow (wait_for_clk env s)

/-- The loop body of `Mdio::preamble`: `n` successive clock pulses. -/
def preamble_pulses (env : Env S E) : Nat → S → Except E S
  | 0, s => .ok s
  | n + 1, s =>
    match pulse_clock env s with
    | .error e => .error e
    | .ok s => preamble_pulses env n s

/-- Embeds `Mdio::preamble`: drive the data line high, then pulse the
clock `PREAMBLE_BITS` times. -/
def preamble (env : Env S E) (s : S) : Except E S :=
  match env.mdioSetHigh s with
  | .error e => .error e
  | .ok s => preamble_pulses env PREAMBLE_BITS s

/-- Embeds `bit_is_set`: whether the bit at `bit_index` is set, where
index `0` is the most significant bit of the byte and `7` the least.
The source assumes `bit_index` lies in `0..8`. -/
def bit_is_set (byte : Nat) (bit_index : Nat) : Bool :=
  (byte >>> (7 - bit_index)) &&& 1 == 1

/-- Embeds `set_bit`: set the bit at `bit_index`, where index `0` is the
most significant bit of the byte and `7` the least. -/
def set_bit (byte : Nat) (bit_index : Nat) : Nat :=
  byte ||| (1 <<< (7 - bit_index))

/-- Embeds `Mdio::write_bit`: drive the data line to the level of the
given bit, then pulse the clock. -/
def write_bit (env : Env S E) (bit : Bool) (s : S) : Except E S :=
  match (if bit then env.mdioSetHigh s else env.mdioSetLow s) with
  | .error e => .error e
  | .ok s => pulse_clock env s

/-- The loop shared by `Mdio::write_bits` and `Mdio::write_u8`: write the
bit of `byte` at each index in the list, most significant first. -/
def write_bits_loop (env : Env S E) (byte : Nat) : List Nat → S → Except E S
  | [], s => .ok s
  | i :: rest, s =>
    match write_bit env (bit_is_set byte i) s with
    | .error e => .error e
    | .ok s => write_bits_loop env byte rest s

/-- Embeds `Mdio::write_bits`: write the `min count 8` most significant
bits of `byte`. -/
def write_bits (env : Env S E) (byte : Nat) (count : Nat) (s : S) : Except E S :=
  write_bits_loop env byte (List.range (min count 8)) s

/-- Embeds `Mdio::write_u8`: write all 8 bits of `byte`, most significant
first. -/
def write_u8 (env : Env S E) (byte : Nat) (s : S) : Except E S :=
  write_bits_loop env byte (List.range 8) s

/-- The most significant byte of a 16-bit word, as in `u16::to_be_bytes`. -/
def u16_be_hi (w : Nat) : Nat := w / 256 % 256

/-- The least significant byte of a 16-bit word, as in `u16::to_be_bytes`. -/
def u16_be_lo (w : Nat) : Nat := w % 256

/-- Embeds `Mdio::write_u16`: write both bytes of the word, most
significant byte first. -/
def write_u16 (env : Env S E) (w : Nat) (s : S) : Except E S :=
  match write_u8 env (u16_be_hi w) s with
  | .error e => .error e
  | .ok s => write_u8 env (u16_be_lo w) s

/-- Embeds `Mdio::turnaround`: two plain clock pulses with no data-line
operation. -/
def turnaround (env : Env S E) (s : S) : Except E S :=
  match pulse_clock env s with
  | .error e => .error e
  | .ok s => pulse_clock env s

/-- Embeds `Mdio::read_bit`: sense the data line, then pulse the clock. -/
def read_bit (env : Env S E) (s : S) : Except E (Bool × S) :=
  match env.mdioIsHigh s with
  | .error e => .error e
  | .ok (b, s) =>
    match pulse_clock env s with
    | .error e => .error e
    | .ok s => .ok (b, s)

/-- The loop of `Mdio::read_byte`: for each index in the list, read a bit
and, when it is set, record it at that index of the accumulator. -/
def read_byte_loop (env : Env S E) : List Nat → Nat → S → Except E (Nat × S)
  | [], byte, s => .ok (byte, s)
  | i :: rest, byte, s =>
    match read_bit env s with
    | .error e => .error e
    | .ok (b, s) => read_byte_loop env rest (if b then set_bit byte i else byte) s

/-- Embeds `Mdio::read_byte`: accumulate 8 sensed bits, most significant
first, starting from `0`. -/
def read_byte (env : Env S E) (s : S) : Except E (Nat × S) :=
  read_byte_loop env (List.range 8) 0 s

/-- Embeds `Mdio::read_u16`: read two bytes and combine them as
`u16::from_be_bytes`. -/
def read_u16 (env : Env S E) (s : S) : Except E (Nat × S) :=
  match read_byte env s with
  | .error e => .error e
  | .ok (a, s) =>
    match read_byte env s with
    | .error e => .error e
    | .ok (b, s) => .ok (a * 256 + b, s)

/-- Embeds `<Mdio as mdio::Read>::read`: preamble, the full first control
byte, the 6 most significant bits of the second control byte, the
turnaround, then a 16-bit read. -/
def read (env : Env S E) (ctrl_bits : Nat) (s : S) : Except E (Nat × S) :=
  match preamble env s with
  | .error e => .error e
  | .ok s =>
    match write_u8 env (u16_be_hi ctrl_bits) s with
    | .error e => .error e
    | .ok s =>
      match write_bits env (u16_be_lo ctrl_bits) 6 s with
      | .error e => .error e
      | .ok s =>
        match turnaround env s with
        | .error e => .error e
        | .ok s => read_u16 env s

/-- Embeds `<Mdio as mdio::Write>::write`: preamble, the full 16-bit
control word, then the full 16-bit data word. -/
def write (env : Env S E) (ctrl_bits data_bits : Nat) (s : S) : Except E S :=
  match preamble env s with
  | .error e => .error e
  | .ok s =>
    match write_u16 env ctrl_bits s with
    | .error e => .error e
    | .ok s => write_u16 env data_bits s

/-- Embeds `miim::phy_addr_ctrl_bits`: mask the device address to its low
5 bits and shift it to offset 7. -/
def phy_addr_ctrl_bits (phy_addr : Nat) : Nat :=
  (phy_addr &&& 0b00011111) <<< 7

/-- Embeds `miim::reg_addr_ctrl_bits`: mask the register address to its
low 5 bits and shift it to offset 2. -/
def reg_addr_ctrl_bits (reg_addr : Nat) : Nat :=
  (reg_addr &&& 0b00011111) <<< 2

/-- Embeds `miim::READ_CTRL_BITS`. -/
def READ_CTRL_BITS : Nat := 0b0110000000000000

/-- Embeds `miim::WRITE_CTRL_BITS`. -/
def WRITE_CTRL_BITS : Nat := 0b0101000000000010

/-- Embeds `miim::read_ctrl_bits`: the control bits for an MDIO read. -/
def read_ctrl_bits (phy_addr reg_addr : Nat) : Nat :=
  READ_CTRL_BITS ||| phy_addr_ctrl_bits phy_addr ||| reg_addr_ctrl_bits reg_addr

/-- Embeds `miim::write_ctrl_bits`: the control bits for an MDIO write. -/
def write_ctrl_bits (phy_addr reg_addr : Nat) : Nat :=
  WRITE_CTRL_BITS ||| phy_addr_ctrl_bits phy_addr ||| reg_addr_ctrl_bits reg_addr

/-! ### A trace-recording environment

The world state records every collaborator interaction in order, feeds
sensed data-line levels from a caller-chosen stream, and tracks the
current level of the clock line. -/

/-- World state for the trace-recording environment. -/
structure TrState where
  events : List Ev
  inputs : Nat → Bool
  idx : Nat
  mdcLevel : Bool

/-- The trace-recording environment: no operation fails, every operation
is logged, senses are answered from the `inputs` stream. -/
def traceEnv : Env TrState Empty where
  mdioSetHigh := fun s => .ok { s with events := s.events ++ [Ev.mdioHigh] }
  mdioSetLow := fun s => .ok { s with events := s.events ++ [Ev.mdioLow] }
  mdioIsHigh := fun s =>
    .ok (s.inputs s.idx,
      { s with events := s.events ++ [Ev.sense (s.inputs s.idx)], idx := s.idx + 1 })
  mdcSetHigh := fun s => .ok { s with events := s.events ++ [Ev.mdcHigh], mdcLevel := true }
  mdcSetLow := fun s => .ok { s with events := s.events ++ [Ev.mdcLow], mdcLevel := false }
  clkWait := fun s => (none, { s with events := s.events ++ [Ev.clkWait] })

/-- The initial world state for the trace-recording environment. -/
def initState (inputs : Nat → Bool) : TrState :=
  { events := [], inputs := inputs, idx := 0, mdcLevel := false }

/-- Extracts the recorded events from a transport step that cannot fail. -/
def okEvents : Except Empty TrState → List Ev
  | .ok s => s.events
  | .error e => e.elim

/-- Extracts the data word returned by a read that cannot fail. -/
def okReadVal : Except Empty (Nat × TrState) → Nat
  | .ok p => p.1
  | .error e => e.elim

/-- Extracts the final world state of a read that cannot fail. -/
def okReadState : Except Empty (Nat × TrState) → TrState
  | .ok p => p.2
  | .error e => e.elim

/-- An environment whose pins always succeed silently but whose timer
wait always completes with an error. -/
def errClkEnv : Env Unit Unit where
  mdioSetHigh := fun _ => .ok ()
  mdioSetLow := fun _ => .ok ()
  mdioIsHigh := fun _ => .ok (false, ())
  mdcSetHigh := fun _ => .ok ()
  mdcSetLow := fun _ => .ok ()
  clkWait := fun _ => (some (), ())

/-- An environment whose data pin fails on set-high with the error value
`7`, used to exhibit verbatim pin error propagation. -/
def failPinEnv : Env Unit Nat where
  mdioSetHigh := fun _ => .error 7
  mdioSetLow := fun _ => .ok ()
  mdioIsHigh := fun _ => .ok (false, ())
  mdcSetHigh := fun _ => .ok ()
  mdcSetLow := fun _ => .ok ()
  clkWait := fun _ => (none, ())

/-! ### Expected event shapes

Spec-side descriptions of the wire activity: one clock pulse, a driven
bit, a sensed bit, and the runs of pulses, driven bits and sensed bits
that make up a transaction. `msbBit w i` is bit `i` of a 16-bit word
counted from the most significant end. -/

/-- One clock pulse as seen by the collaborators. -/
def pulseEvs : List Ev := [Ev.clkWait, Ev.mdcHigh, Ev.clkWait, Ev.mdcLow]

/-- The data-line drive event for a bit level. -/
def driveEv (b : Bool) : Ev := if b then Ev.mdioHigh else Ev.mdioLow

/-- Writing one bit: drive the data line, then one clock pulse. -/
def writeBitEvs (b : Bool) : List Ev := driveEv b :: pulseEvs

/-- Sensing one bit: sample the data line, then one clock pulse. -/
def senseBitEvs (b : Bool) : List Ev := Ev.sense b :: pulseEvs

/-- A run of `n` plain clock pulses. -/
def pulsesEvs : Nat → List Ev
  | 0 => []
  | n + 1 => pulseEvs ++ pulsesEvs n

/-- Bit `i` of the 16-bit word `w`, counting from the most significant
bit (`i = 0` names bit 15 of the value). -/
def msbBit (w i : Nat) : Bool := Nat.testBit w (15 - i)

/-- The events of writing bits `i, i+1, ..., i+n-1` (most significant
first numbering) of the 16-bit word `w`. -/
def writeEvsFor (w : Nat) (i : Nat) : Nat → List Ev
  | 0 => []
  | n + 1 => writeBitEvs (msbBit w i) ++ writeEvsFor w (i + 1) n

/-- The events of sensing `n` successive bits from the input stream,
starting at stream position `base`. -/
def senseEvsFor (inputs : Nat → Bool) (base : Nat) : Nat → List Ev
  | 0 => []
  | n + 1 => senseBitEvs (inputs base) ++ senseEvsFor inputs (base + 1) n

/-- The full expected event trace of a read transaction: data line high,
32 preamble pulses, the 8 bits of the first control byte, the 6 most
significant bits of the second control byte, 2 turnaround pulses with no
data-line activity, then 16 sensed bits. -/
def readTraceEvs (ctrl : Nat) (inputs : Nat → Bool) : List Ev :=
  Ev.mdioHigh ::
    (pulsesEvs PREAMBLE_BITS ++ writeEvsFor ctrl 0 8 ++ writeEvsFor ctrl 8 6 ++
      pulseEvs ++ pulseEvs ++ senseEvsFor inputs 0 16)

/-- The full expected event trace of a write transaction: data line high,
32 preamble pulses, all 16 control bits, then all 16 data bits. -/
def writeTraceEvs (ctrl data : Nat) : List Ev :=
  Ev.mdioHigh ::
    (pulsesEvs PREAMBLE_BITS ++ writeEvsFor ctrl 0 8 ++ writeEvsFor ctrl 8 8 ++
      writeEvsFor data 0 8 ++ writeEvsFor data 8 8)

/-- The sequence of data-line levels driven during a list of events. -/
def driveLevels : List Ev → List Bool
  | [] => []
  | Ev.mdioHigh :: rest => true :: driveLevels rest
  | Ev.mdioLow :: rest => false :: driveLevels rest
  | _ :: rest => driveLevels rest

/-! ### Proof-side helpers -/

/-- The events of writing bits `j, ..., j+n-1` of a byte, in the byte-local
most-significant-first numbering of `bit_is_set`. -/
def writeEvsForByte (byte : Nat) (j : Nat) : Nat → List Ev
  | 0 => []
  | n + 1 => writeBitEvs (bit_is_set byte j) ++ writeEvsForByte byte (j + 1) n

/-- The accumulator computed by the read-byte loop over indices
`j, ..., j+n-1`, sensing stream positions `base, base+1, ...`. -/
def accByte (inputs : Nat → Bool) : Nat → Nat → Nat → Nat → Nat
  | _, 0, _, acc => acc
  | base, n + 1, j, acc =>
    accByte inputs (base + 1) n (j + 1) (if inputs base then set_bit acc j else acc)

/-- Collects the five pin-operation error clauses of an environment: every
error any pin operation can produce satisfies `P`. The timer wait is
deliberately absent. -/
def PinErrsIn (env : Env S E) (P : E → Prop) : Prop :=
  (∀ s e, env.mdioSetHigh s = .error e → P e) ∧
  (∀ s e, env.mdioSetLow s = .error e → P e) ∧
  (∀ s e, env.mdioIsHigh s = .error e → P e) ∧
  (∀ s e, env.mdcSetHigh s = .error e → P e) ∧
  (∀ s e, env.mdcSetLow s = .error e → P e)

/-- The single collaborator fact the clock-low results need: a successful
set-low of the clock pin leaves the observed clock level `lvl` low. -/
def MdcLowSpec (env : Env S E) (lvl : S → Bool) : Prop :=
  ∀ s s', env.mdcSetLow s = .ok s' → lvl s' = false

/-! ### Behaviour of the transport on the trace-recording environment -/

theorem traceEnv_mdioSetHigh (s : TrState) :
    traceEnv.mdioSetHigh s = .ok ⟨s.events ++ [Ev.mdioHigh], s.inputs, s.idx, s.mdcLevel⟩ :=
  rfl

theorem traceEnv_mdioSetLow (s : TrState) :
    traceEnv.mdioSetLow s = .ok ⟨s.events ++ [Ev.mdioLow], s.inputs, s.idx, s.mdcLevel⟩ :=
  rfl

theorem traceEnv_mdioIsHigh (s : TrState) :
    traceEnv.mdioIsHigh s =
      .ok (s.inputs s.idx,
        ⟨s.events ++ [Ev.sense (s.inputs s.idx)], s.inputs, s.idx + 1, s.mdcLevel⟩) :=
  rfl

theorem traceEnv_mdcSetHigh (s : TrState) :
    traceEnv.mdcSetHigh s = .ok ⟨s.events ++ [Ev.mdcHigh], s.inputs, s.idx, true⟩ :=
  rfl

theorem traceEnv_mdcSetLow (s : TrState) :
    traceEnv.mdcSetLow s = .ok ⟨s.events ++ [Ev.mdcLow], s.inputs, s.idx, false⟩ :=
  rfl

theorem wait_for_clk_trace (s : TrState) :
    wait_for_clk traceEnv s = ⟨s.events ++ [Ev.clkWait], s.inputs, s.idx, s.mdcLevel⟩ :=
  rfl

theorem pulse_clock_trace (s : TrState) :
    pulse_clock traceEnv s = .ok ⟨s.events ++ pulseEvs, s.inputs, s.idx, false⟩ := by
  simp [pulse_clock, wait_for_clk_trace, traceEnv_mdcSetHigh, traceEnv_mdcSetLow, pulseEvs]

theorem preamble_pulses_trace (n : Nat) :
    ∀ s : TrState, preamble_pulses traceEnv n s =
      .ok ⟨s.events ++ pulsesEvs n, s.inputs, s.idx,
        if n = 0 then s.mdcLevel else false⟩ := by
  induction n with
  | zero => intro s; simp [preamble_pulses, pulsesEvs]
  | succ n ih =>
    intro s
    simp [preamble_pulses, pulse_clock_trace, ih, pulsesEvs]

theorem preamble_trace (s : TrState) :
    preamble traceEnv s =
      .ok ⟨s.events ++ Ev.mdioHigh :: pulsesEvs PREAMBLE_BITS, s.inputs, s.idx, false⟩ := by
  simp [preamble, traceEnv_mdioSetHigh, preamble_pulses_trace, PREAMBLE_BITS]

theorem write_bit_trace (b : Bool) (s : TrState) :
    write_bit traceEnv b s = .ok ⟨s.events ++ writeBitEvs b, s.inputs, s.idx, false⟩ := by
  cases b <;>
    simp [write_bit, traceEnv_mdioSetHigh, traceEnv_mdioSetLow, pulse_clock_trace,
      writeBitEvs, driveEv]

theorem write_bits_loop_trace (byte : Nat) (n : Nat) :
    ∀ (j : Nat) (s : TrState), write_bits_loop traceEnv byte (List.range' j n) s =
      .ok ⟨s.events ++ writeEvsForByte byte j n, s.inputs, s.idx,
        if n = 0 then s.mdcLevel else false⟩ := by
  induction n with
  | zero => intro j s; simp [write_bits_loop, writeEvsForByte]
  | succ n ih =>
    intro j s
    rw [List.range'_succ]
    simp [write_bits_loop, write_bit_trace, ih, writeEvsForByte]

theorem write_u8_trace (byte : Nat) (s : TrState) :
    write_u8 traceEnv byte s =
      .ok ⟨s.events ++ writeEvsForByte byte 0 8, s.inputs, s.idx, false⟩ := by
  rw [write_u8, List.range_eq_range', write_bits_loop_trace]
  simp

theorem write_bits_six_trace (byte : Nat) (s : TrState) :
    write_bits traceEnv byte 6 s =
      .ok ⟨s.events ++ writeEvsForByte byte 0 6, s.inputs, s.idx, false⟩ := by
  rw [write_bits, show min 6 8 = 6 from rfl, List.range_eq_range', write_bits_loop_trace]
  simp

theorem write_u16_trace (w : Nat) (s : TrState) :
    write_u16 traceEnv w s =
      .ok ⟨s.events ++ (writeEvsForByte (u16_be_hi w) 0 8 ++ writeEvsForByte (u16_be_lo w) 0 8),
        s.inputs, s.idx, false⟩ := by
  simp [write_u16, write_u8_trace]

theorem turnaround_trace (s : TrState) :
    turnaround traceEnv s =
      .ok ⟨s.events ++ (pulseEvs ++ pulseEvs), s.inputs, s.idx, false⟩ := by
  simp [turnaround, pulse_clock_trace]

theorem read_bit_trace (s : TrState) :
    read_bit traceEnv s =
      .ok (s.inputs s.idx,
        ⟨s.events ++ senseBitEvs (s.inputs s.idx), s.inputs, s.idx + 1, false⟩) := by
  simp [read_bit, traceEnv_mdioIsHigh, pulse_clock_trace, senseBitEvs]

theorem read_byte_loop_trace (n : Nat) :
    ∀ (j acc : Nat) (s : TrState), read_byte_loop traceEnv (List.range' j n) acc s =
      .ok (accByte s.inputs s.idx n j acc,
        ⟨s.events ++ senseEvsFor s.inputs s.idx n, s.inputs, s.idx + n,
          if n = 0 then s.mdcLevel else false⟩) := by
  induction n with
  | zero => intro j acc s; simp [read_byte_loop, accByte, senseEvsFor]
  | succ n ih =>
    intro j acc s
    rw [List.range'_succ]
    simp [read_byte_loop, read_bit_trace, ih, accByte, senseEvsFor]
    omega

theorem read_byte_trace (s : TrState) :
    read_byte traceEnv s =
      .ok (accByte s.inputs s.idx 8 0 0,
        ⟨s.events ++ senseEvsFor s.inputs s.idx 8, s.inputs, s.idx + 8, false⟩) := by
  rw [read_byte, List.range_eq_range', read_byte_loop_trace]
  simp

theorem read_u16_trace (s : TrState) :
    read_u16 traceEnv s =
      .ok (accByte s.inputs s.idx 8 0 0 * 256 + accByte s.inputs (s.idx + 8) 8 0 0,
        ⟨s.events ++ (senseEvsFor s.inputs s.idx 8 ++ senseEvsFor s.inputs (s.idx + 8) 8),
          s.inputs, s.idx + 16, false⟩) := by
  simp [read_u16, read_byte_trace]

/-! ### From byte-local bit numbering to word-level bit numbering -/

theorem bit_is_set_eq_testBit (b j : Nat) : bit_is_set b j = Nat.testBit b (7 - j) := by
  simp only [bit_is_set, Nat.testBit_to_div_mod, Nat.shiftRight_eq_div_pow, Nat.and_one_is_mod]
  rcases Nat.mod_two_eq_zero_or_one (b / 2 ^ (7 - j)) with h | h <;> simp [h]

theorem bit_is_set_hi (w j : Nat) (hj : j < 8) : bit_is_set (u16_be_hi w) j = msbBit w j := by
  rw [bit_is_set_eq_testBit, msbBit, u16_be_hi,
    show (256 : Nat) = 2 ^ 8 from rfl, Nat.testBit_mod_two_pow,
    show w / 2 ^ 8 = w >>> 8 from (Nat.shiftRight_eq_div_pow w 8).symm,
    Nat.testBit_shiftRight]
  have : 8 + (7 - j) = 15 - j := by omega
  simp [this, show 7 - j < 8 by omega]

theorem bit_is_set_lo (w j : Nat) (hj : j < 8) :
    bit_is_set (u16_be_lo w) j = msbBit w (8 + j) := by
  rw [bit_is_set_eq_testBit, msbBit, u16_be_lo,
    show (256 : Nat) = 2 ^ 8 from rfl, Nat.testBit_mod_two_pow]
  have : 15 - (8 + j) = 7 - j := by omega
  simp [this, show 7 - j < 8 by omega]

theorem writeEvsForByte_hi (w : Nat) (n : Nat) :
    ∀ j, j + n ≤ 8 → writeEvsForByte (u16_be_hi w) j n = writeEvsFor w j n := by
  induction n with
  | zero => intro j h; rfl
  | succ n ih =>
    intro j h
    rw [writeEvsForByte, writeEvsFor, bit_is_set_hi w j (by omega), ih (j + 1) (by omega)]

theorem writeEvsForByte_lo (w : Nat) (n : Nat) :
    ∀ j, j + n ≤ 8 → writeEvsForByte (u16_be_lo w) j n = writeEvsFor w (8 + j) n := by
  induction n with
  | zero => intro j h; rfl
  | succ n ih =>
    intro j h
    rw [writeEvsForByte, writeEvsFor, bit_is_set_lo w j (by omega), ih (j + 1) (by omega)]
    simp [Nat.add_assoc]

/-! ### Full transaction traces -/

theorem senseEvsFor_add (inputs : Nat → Bool) (m : Nat) :
    ∀ (base n : Nat), senseEvsFor inputs base (m + n) =
      senseEvsFor inputs base m ++ senseEvsFor inputs (base + m) n := by
  induction m with
  | zero => intro base n; simp [senseEvsFor]
  | succ m ih =>
    intro base n
    rw [show m + 1 + n = (m + n) + 1 by omega]
    rw [senseEvsFor, senseEvsFor, ih (base + 1) n]
    simp [List.append_assoc, show base + 1 + m = base + (m + 1) by omega]

theorem read_traceEnv (ctrl : Nat) (inputs : Nat → Bool) :
    read traceEnv ctrl (initState inputs) =
      .ok (accByte inputs 0 8 0 0 * 256 + accByte inputs 8 8 0 0,
        ⟨readTraceEvs ctrl inputs, inputs, 16, false⟩) := by
  simp only [read, preamble_trace, write_u8_trace, write_bits_six_trace, turnaround_trace,
    read_u16_trace, initState]
  rw [writeEvsForByte_hi ctrl 8 0 (by omega), writeEvsForByte_lo ctrl 6 0 (by omega)]
  simp [readTraceEvs, senseEvsFor_add inputs 8 0 8, List.append_assoc]

theorem write_traceEnv (ctrl data : Nat) (inputs : Nat → Bool) :
    write traceEnv ctrl data (initState inputs) =
      .ok ⟨writeTraceEvs ctrl data, inputs, 0, false⟩ := by
  simp only [write, preamble_trace, write_u16_trace, initState]
  rw [writeEvsForByte_hi ctrl 8 0 (by omega), writeEvsForByte_lo ctrl 8 0 (by omega),
    writeEvsForByte_hi data 8 0 (by omega), writeEvsForByte_lo data 8 0 (by omega)]
  simp [writeTraceEvs, List.append_assoc]

/-! ### Value of the byte assembled by the read loop -/

theorem stepAcc_testBit (inputs : Nat → Bool) (base acc j p : Nat) :
    ((if inputs base then set_bit acc j else acc).testBit p) =
      if p = 7 - j then (inputs base || acc.testBit p) else acc.testBit p := by
  by_cases hb : inputs base <;> by_cases hp : p = 7 - j <;>
    simp [hb, hp, set_bit, Nat.testBit_or, Nat.shiftLeft_eq, Nat.testBit_two_pow]
  intro h
  exact absurd h.symm hp

theorem accByte_testBit (inputs : Nat → Bool) (n : Nat) :
    ∀ (j acc base : Nat), j + n ≤ 8 →
      (∀ q, q < 8 - j → acc.testBit q = false) →
      ∀ p, (accByte inputs base n j acc).testBit p =
        if 8 - (j + n) ≤ p ∧ p < 8 - j then inputs (base + (7 - j - p))
        else acc.testBit p := by
  induction n with
  | zero =>
    intro j acc base h hacc p
    have hc : ¬(8 - (j + 0) ≤ p ∧ p < 8 - j) := by omega
    simp only [accByte]
    rw [if_neg hc]
  | succ n ih =>
    intro j acc base h hacc p
    rw [accByte]
    have hacc1 : ∀ q, q < 8 - (j + 1) →
        (if inputs base then set_bit acc j else acc).testBit q = false := by
      intro q hq
      rw [stepAcc_testBit, if_neg (by omega)]
      exact hacc q (by omega)
    rw [ih (j + 1) _ (base + 1) (by omega) hacc1 p]
    by_cases hc : 8 - (j + 1 + n) ≤ p ∧ p < 8 - (j + 1)
    · rw [if_pos hc, if_pos (by omega)]
      congr 1
      omega
    · rw [if_neg hc, stepAcc_testBit]
      by_cases hg : 8 - (j + (n + 1)) ≤ p ∧ p < 8 - j
      · rw [if_pos hg, if_pos (by omega), hacc p (by omega)]
        have hbase : base + (7 - j - p) = base := by omega
        simp [hbase]
      · rw [if_neg hg, if_neg (by omega)]

theorem accByte_bits (inputs : Nat → Bool) (base p : Nat) :
    (accByte inputs base 8 0 0).testBit p =
      if p < 8 then inputs (base + (7 - p)) else false := by
  have h := accByte_testBit inputs 8 0 0 base (by omega) (by intro q hq; simp) p
  simpa using h

theorem accByte_lt_aux (inputs : Nat → Bool) (n : Nat) :
    ∀ (j acc base : Nat), acc < 256 → accByte inputs base n j acc < 256 := by
  induction n with
  | zero => intro j acc base h; simpa [accByte] using h
  | succ n ih =>
    intro j acc base h
    rw [accByte]
    apply ih
    by_cases hb : inputs base
    · rw [if_pos hb]
      have h2 : (1 <<< (7 - j)) < 256 := by
        rw [Nat.shiftLeft_eq, one_mul]
        calc 2 ^ (7 - j) ≤ 2 ^ 7 := Nat.pow_le_pow_right (by norm_num) (by omega)
          _ < 256 := by norm_num
      exact Nat.or_lt_two_pow (n := 8) h h2
    · rw [if_neg hb]; exact h

theorem accByte_lt (inputs : Nat → Bool) (base : Nat) :
    accByte inputs base 8 0 0 < 256 :=
  accByte_lt_aux inputs 8 0 0 base (by norm_num)

theorem testBit_assemble (a b p : Nat) (hb : b < 256) :
    (a * 256 + b).testBit p = if p < 8 then b.testBit p else a.testBit (p - 8) := by
  by_cases hp : p < 8
  · rw [if_pos hp]
    have h2 : (a * 256 + b) % 2 ^ 8 = b := by
      have he : (2 : Nat) ^ 8 = 256 := rfl
      rw [he]
      omega
    calc (a * 256 + b).testBit p
        = ((a * 256 + b) % 2 ^ 8).testBit p := by
          rw [Nat.testBit_mod_two_pow]
          simp [hp]
      _ = b.testBit p := by rw [h2]
  · rw [if_neg hp]
    have h1 : (a * 256 + b) >>> 8 = a := by
      rw [Nat.shiftRight_eq_div_pow]
      have he : (2 : Nat) ^ 8 = 256 := rfl
      rw [he]
      omega
    calc (a * 256 + b).testBit p
        = ((a * 256 + b) >>> 8).testBit (p - 8) := by
          rw [Nat.testBit_shiftRight]
          congr 1
          omega
      _ = a.testBit (p - 8) := by rw [h1]

theorem read_result_testBit (inputs : Nat → Bool) (i : Nat) (hi : i < 16) :
    (accByte inputs 0 8 0 0 * 256 + accByte inputs 8 8 0 0).testBit (15 - i) = inputs i := by
  rw [testBit_assemble _ _ _ (accByte_lt inputs 8)]
  by_cases h8 : i < 8
  · rw [if_neg (by omega), accByte_bits, if_pos (by omega)]
    congr 1
    omega
  · rw [if_pos (by omega), accByte_bits, if_pos (by omega)]
    congr 1
    omega

theorem read_result_lt (inputs : Nat → Bool) :
    accByte inputs 0 8 0 0 * 256 + accByte inputs 8 8 0 0 < 65536 := by
  have h1 := accByte_lt inputs 0
  have h2 := accByte_lt inputs 8
  omega

/-! ### The clock line after a successful operation

Every successful clock pulse ends in a set-low of the clock pin, and every
public operation ends in a clock pulse, so any observable clock-level
function is forced low by a successful transaction. -/

section ClockLow

variable (env : Env S E) (lvl : S → Bool)

theorem pulse_clock_low (hlow : MdcLowSpec env lvl) :
    ∀ s s', pulse_clock env s = .ok s' → lvl s' = false := by
  intro s s' h
  rw [pulse_clock] at h
  split at h
  · exact absurd h (by simp)
  · exact hlow _ _ h

theorem preamble_pulses_low (hlow : MdcLowSpec env lvl) :
    ∀ n s s', preamble_pulses env (n + 1) s = .ok s' → lvl s' = false := by
  intro n
  induction n with
  | zero =>
    intro s s' h
    rw [preamble_pulses] at h
    split at h
    · exact absurd h (by simp)
    · rename_i s1 heq
      rw [preamble_pulses] at h
      cases h
      exact pulse_clock_low env lvl hlow _ _ heq
  | succ n ih =>
    intro s s' h
    rw [preamble_pulses] at h
    split at h
    · exact absurd h (by simp)
    · exact ih _ _ h

theorem preamble_low (hlow : MdcLowSpec env lvl) : ∀ s s', preamble env s = .ok s' → lvl s' = false := by
  intro s s' h
  rw [preamble] at h
  split at h
  · exact absurd h (by simp)
  · exact preamble_pulses_low env lvl hlow 31 _ _ h

theorem write_bit_low (hlow : MdcLowSpec env lvl) : ∀ b s s', write_bit env b s = .ok s' → lvl s' = false := by
  intro b s s' h
  rw [write_bit] at h
  split at h
  · exact absurd h (by simp)
  · exact pulse_clock_low env lvl hlow _ _ h

theorem write_bits_loop_low (hlow : MdcLowSpec env lvl) (byte : Nat) :
    ∀ (l : List Nat) (s s' : S), l ≠ [] →
      write_bits_loop env byte l s = .ok s' → lvl s' = false := by
  intro l
  induction l with
  | nil => intro s s' hne; exact absurd rfl hne
  | cons i rest ih =>
    intro s s' _ h
    rw [write_bits_loop] at h
    split at h
    · exact absurd h (by simp)
    · rename_i s1 heq
      rcases rest with _ | ⟨i2, rest2⟩
      · rw [write_bits_loop] at h
        cases h
        exact write_bit_low env lvl hlow _ _ _ heq
      · exact ih _ _ (by simp) h

theorem write_u8_low (hlow : MdcLowSpec env lvl) (byte : Nat) :
    ∀ s s', write_u8 env byte s = .ok s' → lvl s' = false := by
  intro s s' h
  exact write_bits_loop_low env lvl hlow byte (List.range 8) s s' (by simp) h

theorem write_u16_low (hlow : MdcLowSpec env lvl) (w : Nat) :
    ∀ s s', write_u16 env w s = .ok s' → lvl s' = false := by
  intro s s' h
  rw [write_u16] at h
  split at h
  · exact absurd h (by simp)
  · exact write_u8_low env lvl hlow _ _ _ h

theorem read_bit_low (hlow : MdcLowSpec env lvl) : ∀ s b s', read_bit env s = .ok (b, s') → lvl s' = false := by
  intro s b s' h
  rw [read_bit] at h
  split at h
  · exact absurd h (by simp)
  · split at h
    · exact absurd h (by simp)
    · rename_i heq
      cases h
      exact pulse_clock_low env lvl hlow _ _ heq

theorem read_byte_loop_low (hlow : MdcLowSpec env lvl) :
    ∀ (l : List Nat) (acc : Nat) (s : S) (b : Nat) (s' : S), l ≠ [] →
      read_byte_loop env l acc s = .ok (b, s') → lvl s' = false := by
  intro l
  induction l with
  | nil => intro acc s b s' hne; exact absurd rfl hne
  | cons i rest ih =>
    intro acc s b s' _ h
    rw [read_byte_loop] at h
    split at h
    · exact absurd h (by simp)
    · rename_i p heq
      rcases rest with _ | ⟨i2, rest2⟩
      · rw [read_byte_loop] at h
        cases h
        exact read_bit_low env lvl hlow _ _ _ heq
      · exact ih _ _ _ _ (by simp) h

theorem read_byte_low (hlow : MdcLowSpec env lvl) : ∀ s b s', read_byte env s = .ok (b, s') → lvl s' = false := by
  intro s b s' h
  exact read_byte_loop_low env lvl hlow (List.range 8) 0 s b s' (by simp) h

theorem read_u16_low (hlow : MdcLowSpec env lvl) : ∀ s w s', read_u16 env s = .ok (w, s') → lvl s' = false := by
  intro s w s' h
  rw [read_u16] at h
  split at h
  · exact absurd h (by simp)
  · split at h
    · exact absurd h (by simp)
    · rename_i heq
      cases h
      exact read_byte_low env lvl hlow _ _ _ heq

theorem read_low (hlow : MdcLowSpec env lvl) : ∀ c s w s', read env c s = .ok (w, s') → lvl s' = false := by
  intro c s w s' h
  rw [read] at h
  split at h
  · exact absurd h (by simp)
  · split at h
    · exact absurd h (by simp)
    · split at h
      · exact absurd h (by simp)
      · split at h
        · exact absurd h (by simp)
        · exact read_u16_low env lvl hlow _ _ _ h

theorem write_low (hlow : MdcLowSpec env lvl) : ∀ c d s s', write env c d s = .ok s' → lvl s' = false := by
  intro c d s s' h
  rw [write] at h
  split at h
  · exact absurd h (by simp)
  · split at h
    · exact absurd h (by simp)
    · exact write_u16_low env lvl hlow _ _ _ h

end ClockLow

/-! ### Origin of transaction errors

Every error a transaction can return was produced by one of the five pin
operations; the timer wait never contributes an error because its result
is discarded. -/

section ErrOrigin

variable (env : Env S E) (P : E → Prop)

theorem pulse_clock_err (hp : PinErrsIn env P) :
    ∀ s e, pulse_clock env s = .error e → P e := by
  intro s e h
  rw [pulse_clock] at h
  split at h
  · rename_i heq
    cases h
    exact hp.2.2.2.1 _ _ heq
  · exact hp.2.2.2.2 _ _ h

theorem preamble_pulses_err (hp : PinErrsIn env P) :
    ∀ n s e, preamble_pulses env n s = .error e → P e := by
  intro n
  induction n with
  | zero =>
    intro s e h
    rw [preamble_pulses] at h
    exact absurd h (by simp)
  | succ n ih =>
    intro s e h
    rw [preamble_pulses] at h
    split at h
    · rename_i heq
      cases h
      exact pulse_clock_err env P hp _ _ heq
    · exact ih _ _ h

theorem preamble_err (hp : PinErrsIn env P) :
    ∀ s e, preamble env s = .error e → P e := by
  intro s e h
  rw [preamble] at h
  split at h
  · rename_i heq
    cases h
    exact hp.1 _ _ heq
  · exact preamble_pulses_err env P hp _ _ _ h

theorem write_bit_err (hp : PinErrsIn env P) :
    ∀ b s e, write_bit env b s = .error e → P e := by
  intro b s e h
  rw [write_bit] at h
  split at h
  · rename_i heq
    cases h
    rcases b with _ | _
    · rw [if_neg (by simp)] at heq
      exact hp.2.1 _ _ heq
    · rw [if_pos rfl] at heq
      exact hp.1 _ _ heq
  · exact pulse_clock_err env P hp _ _ h

theorem write_bits_loop_err (hp : PinErrsIn env P) (byte : Nat) :
    ∀ (l : List Nat) (s : S) (e : E),
      write_bits_loop env byte l s = .error e → P e := by
  intro l
  induction l with
  | nil =>
    intro s e h
    rw [write_bits_loop] at h
    exact absurd h (by simp)
  | cons i rest ih =>
    intro s e h
    rw [write_bits_loop] at h
    split at h
    · rename_i heq
      cases h
      exact write_bit_err env P hp _ _ _ heq
    · exact ih _ _ h

theorem write_u8_err (hp : PinErrsIn env P) (byte : Nat) :
    ∀ s e, write_u8 env byte s = .error e → P e := by
  intro s e h
  exact write_bits_loop_err env P hp byte _ _ _ h

theorem write_bits_err (hp : PinErrsIn env P) (byte count : Nat) :
    ∀ s e, write_bits env byte count s = .error e → P e := by
  intro s e h
  exact write_bits_loop_err env P hp byte _ _ _ h

theorem write_u16_err (hp : PinErrsIn env P) (w : Nat) :
    ∀ s e, write_u16 env w s = .error e → P e := by
  intro s e h
  rw [write_u16] at h
  split at h
  · rename_i heq
    cases h
    exact write_u8_err env P hp _ _ _ heq
  · exact write_u8_err env P hp _ _ _ h

theorem turnaround_err (hp : PinErrsIn env P) :
    ∀ s e, turnaround env s = .error e → P e := by
  intro s e h
  rw [turnaround] at h
  split at h
  · rename_i heq
    cases h
    exact pulse_clock_err env P hp _ _ heq
  · exact pulse_clock_err env P hp _ _ h

theorem read_bit_err (hp : PinErrsIn env P) :
    ∀ s e, read_bit env s = .error e → P e := by
  intro s e h
  rw [read_bit] at h
  split at h
  · rename_i heq
    cases h
    exact hp.2.2.1 _ _ heq
  · split at h
    · rename_i heq
      cases h
      exact pulse_clock_err env P hp _ _ heq
    · exact absurd h (by simp)

theorem read_byte_loop_err (hp : PinErrsIn env P) :
    ∀ (l : List Nat) (acc : Nat) (s : S) (e : E),
      read_byte_loop env l acc s = .error e → P e := by
  intro l
  induction l with
  | nil =>
    intro acc s e h
    rw [read_byte_loop] at h
    exact absurd h (by simp)
  | cons i rest ih =>
    intro acc s e h
    rw [read_byte_loop] at h
    split at h
    · rename_i heq
      cases h
      exact read_bit_err env P hp _ _ heq
    · exact ih _ _ _ h

theorem read_byte_err (hp : PinErrsIn env P) :
    ∀ s e, read_byte env s = .error e → P e := by
  intro s e h
  exact read_byte_loop_err env P hp (List.range 8) 0 _ _ h

theorem read_u16_err (hp : PinErrsIn env P) :
    ∀ s e, read_u16 env s = .error e → P e := by
  intro s e h
  rw [read_u16] at h
  split at h
  · rename_i heq
    cases h
    exact read_byte_err env P hp _ _ heq
  · split at h
    · rename_i heq
      cases h
      exact read_byte_err env P hp _ _ heq
    · exact absurd h (by simp)

theorem read_err (hp : PinErrsIn env P) :
    ∀ c s e, read env c s = .error e → P e := by
  intro c s e h
  rw [read] at h
  split at h
  · rename_i heq
    cases h
    exact preamble_err env P hp _ _ heq
  · split at h
    · rename_i heq
      cases h
      exact write_u8_err env P hp _ _ _ heq
    · split at h
      · rename_i heq
        cases h
        exact write_bits_err env P hp _ _ _ _ heq
      · split at h
        · rename_i heq
          cases h
          exact turnaround_err env P hp _ _ heq
        · exact read_u16_err env P hp _ _ h

theorem write_err (hp : PinErrsIn env P) :
    ∀ c d s e, write env c d s = .error e → P e := by
  intro c d s e h
  rw [write] at h
  split at h
  · rename_i heq
    cases h
    exact preamble_err env P hp _ _ heq
  · split at h
    · rename_i heq
      cases h
      exact write_u16_err env P hp _ _ _ heq
    · exact write_u16_err env P hp _ _ _ h

end ErrOrigin

/-! ### The claims -/

/-- C1: for device address `0x01` and register address `0x02`, the read
control word is exactly the pattern `0b0110_00001_00010_00` and the write
control word exactly `0b0101_00001_00010_10`. -/
theorem C1_concrete_ctrl_words :
    read_ctrl_bits 0x01 0x02 = 0b0110000010001000 ∧
    write_ctrl_bits 0x01 0x02 = 0b0101000010001010 := by
  decide

/-- C2, counterexample: in an environment whose timer wait completes with
an error on every invocation while the pins never fail, both `read` and
`write` still return success instead of propagating the timing-source
error, because `wait_for_clk` discards the wait result. -/
theorem C2_counterexample :
    (errClkEnv.clkWait ()).1 = some () ∧
    read errClkEnv (read_ctrl_bits 0x01 0x02) () = .ok (0, ()) ∧
    write errClkEnv (write_ctrl_bits 0x01 0x02) 0xABCD () = .ok () := by
  refine ⟨rfl, rfl, rfl⟩

/-- C2, amended: any error returned by a `read` or `write` transaction is
an error produced, unmodified, by one of the five pin operations; pin
failures abort the transaction and surface verbatim, while timing-source
wait failures never surface. -/
theorem C2_pin_errors_propagate (env : Env S E) (P : E → Prop)
    (hp : PinErrsIn env P) :
    (∀ ctrl s e, read env ctrl s = .error e → P e) ∧
    (∀ ctrl data s e, write env ctrl data s = .error e → P e) :=
  ⟨fun ctrl s e h => read_err env P hp ctrl s e h,
   fun ctrl data s e h => write_err env P hp ctrl data s e h⟩

theorem C2_pin_errors_propagate_witness :
    read failPinEnv (read_ctrl_bits 0x01 0x02) () = Except.error 7 ∧ (7 : Nat) = 7 := by
  have hp : PinErrsIn failPinEnv (fun e => e = 7) := by
    refine ⟨?_, ?_, ?_, ?_, ?_⟩
    · intro s e h
      injection h with h2
      exact h2.symm
    · intro s e h
      exact absurd h (by simp [failPinEnv])
    · intro s e h
      exact absurd h (by simp [failPinEnv])
    · intro s e h
      exact absurd h (by simp [failPinEnv])
    · intro s e h
      exact absurd h (by simp [failPinEnv])
  refine ⟨rfl, ?_⟩
  exact (C2_pin_errors_propagate failPinEnv (fun e => e = 7) hp).1
    (read_ctrl_bits 0x01 0x02) () 7 rfl

/-- C3: for every control word and every stream of sensed levels, the read
transaction produces exactly the trace: preamble, the full 8 bits of the
first control byte, exactly 6 bits of the second control byte, exactly 2
turnaround pulses with no data-line drive, then 16 senses one per clock
pulse; the returned word `w` carries the first sensed level at bit 15 and
the last at bit 0 (big-endian, most significant first). -/
theorem C3_read_transaction_shape (ctrl : Nat) (inputs : Nat → Bool) :
    ∃ w, read traceEnv ctrl (initState inputs) =
        .ok (w, ⟨readTraceEvs ctrl inputs, inputs, 16, false⟩) ∧
      w < 65536 ∧ ∀ i, i < 16 → w.testBit (15 - i) = inputs i :=
  ⟨_, read_traceEnv ctrl inputs, read_result_lt inputs,
    fun i hi => read_result_testBit inputs i hi⟩

theorem C3_read_transaction_shape_witness :
    okReadVal (read traceEnv (read_ctrl_bits 0x01 0x02)
        (initState fun i => decide (i = 0))) < 65536 ∧
    (okReadVal (read traceEnv (read_ctrl_bits 0x01 0x02)
        (initState fun i => decide (i = 0)))).testBit 15 = true := by
  obtain ⟨w, hEq, hlt, hbits⟩ :=
    C3_read_transaction_shape (read_ctrl_bits 0x01 0x02) (fun i => decide (i = 0))
  have h0 := hbits 0 (by norm_num)
  constructor
  · simpa [okReadVal, hEq] using hlt
  · simpa [okReadVal, hEq] using h0

/-- C4: every read and every write first drives the data line high, then
emits exactly 32 clock pulses, and the very next data-line event is the
drive of the first (most significant) control bit. -/
theorem C4_preamble_before_ctrl (ctrl data : Nat) (inputs : Nat → Bool) :
    (∃ w fin rest, read traceEnv ctrl (initState inputs) = .ok (w, fin) ∧
      fin.events =
        Ev.mdioHigh :: (pulsesEvs PREAMBLE_BITS ++ driveEv (msbBit ctrl 0) :: rest)) ∧
    (∃ fin rest, write traceEnv ctrl data (initState inputs) = .ok fin ∧
      fin.events =
        Ev.mdioHigh :: (pulsesEvs PREAMBLE_BITS ++ driveEv (msbBit ctrl 0) :: rest)) := by
  constructor
  · refine ⟨_, _,
      pulseEvs ++ (writeEvsFor ctrl 1 7 ++ writeEvsFor ctrl 8 6 ++
        pulseEvs ++ pulseEvs ++ senseEvsFor inputs 0 16),
      read_traceEnv ctrl inputs, ?_⟩
    show readTraceEvs ctrl inputs = _
    rw [readTraceEvs, show (8 : Nat) = 7 + 1 from rfl, writeEvsFor, writeBitEvs]
    simp [List.append_assoc]
  · refine ⟨_,
      pulseEvs ++ (writeEvsFor ctrl 1 7 ++ writeEvsFor ctrl 8 8 ++
        writeEvsFor data 0 8 ++ writeEvsFor data 8 8),
      write_traceEnv ctrl data inputs, ?_⟩
    show writeTraceEvs ctrl data = _
    rw [writeTraceEvs, show (8 : Nat) = 7 + 1 from rfl, writeEvsFor, writeBitEvs]
    simp [List.append_assoc]

/-- C5, counterexample: writing the byte `0b10110000` with `write_u8` does
not drive the sequence high, high, low, high, high, low, low, low claimed
for it: the driven sequence starts high, low (bit 6 of the byte is 0). -/
theorem C5_counterexample :
    driveLevels (okEvents (write_u8 traceEnv 0b10110000 (initState fun _ => false))) ≠
      [true, true, false, true, true, false, false, false] := by
  decide

/-- C5, amended: writing the byte `0b10110000` with `write_u8` drives the
data line high, low, high, high, low, low, low, low, in that order (most
significant bit first), one clock pulse per bit; `write_bits` with count 6
drives the first 6 of those levels in the same order. -/
theorem C5_write_u8_bit_order :
    okEvents (write_u8 traceEnv 0b10110000 (initState fun _ => false)) =
      writeBitEvs true ++ (writeBitEvs false ++ (writeBitEvs true ++ (writeBitEvs true ++
        (writeBitEvs false ++ (writeBitEvs false ++ (writeBitEvs false ++
          writeBitEvs false)))))) ∧
    driveLevels (okEvents (write_u8 traceEnv 0b10110000 (initState fun _ => false))) =
      [true, false, true, true, false, false, false, false] ∧
    okEvents (write_bits traceEnv 0b10110000 6 (initState fun _ => false)) =
      writeBitEvs true ++ (writeBitEvs false ++ (writeBitEvs true ++ (writeBitEvs true ++
        (writeBitEvs false ++ writeBitEvs false)))) ∧
    driveLevels (okEvents (write_bits traceEnv 0b10110000 6 (initState fun _ => false))) =
      [true, false, true, true, false, false] := by
  refine ⟨by decide, by decide, by decide, by decide⟩

/-- C6: for device and register addresses below 32, the read and write
control words agree on every bit outside the operation-code positions 12
and 13 and the turnaround positions 0 and 1. -/
theorem C6_ctrl_words_agree_outside_op_ta (d r i : Nat) (hd : d < 32) (hr : r < 32)
    (h0 : i ≠ 0) (h1 : i ≠ 1) (h12 : i ≠ 12) (h13 : i ≠ 13) :
    (read_ctrl_bits d r).testBit i = (write_ctrl_bits d r).testBit i := by
  have key : Nat.testBit READ_CTRL_BITS i = Nat.testBit WRITE_CTRL_BITS i := by
    by_cases hi : i < 16
    · interval_cases i <;> revert h0 h1 h12 h13 <;> decide
    · have e1 : Nat.testBit READ_CTRL_BITS i = false :=
        Nat.testBit_lt_two_pow
          (lt_of_lt_of_le (by norm_num [READ_CTRL_BITS])
            (Nat.pow_le_pow_right (by norm_num) (le_of_not_lt hi)))
      have e2 : Nat.testBit WRITE_CTRL_BITS i = false :=
        Nat.testBit_lt_two_pow
          (lt_of_lt_of_le (by norm_num [WRITE_CTRL_BITS])
            (Nat.pow_le_pow_right (by norm_num) (le_of_not_lt hi)))
      rw [e1, e2]
  simp [read_ctrl_bits, write_ctrl_bits, Nat.testBit_or, key]

theorem C6_ctrl_words_agree_outside_op_ta_witness :
    (1 : Nat) < 32 ∧ (2 : Nat) < 32 ∧
    (read_ctrl_bits 1 2).testBit 5 = (write_ctrl_bits 1 2).testBit 5 :=
  ⟨by norm_num, by norm_num,
    C6_ctrl_words_agree_outside_op_ta 1 2 5 (by norm_num) (by norm_num)
      (by norm_num) (by norm_num) (by norm_num) (by norm_num)⟩

/-- C7: the control-word builders mask both address arguments to their low
5 bits, so any wider argument yields the same control word as its masked
value; masking is total and idempotent. -/
theorem C7_addr_masking_total (d r : Nat) :
    read_ctrl_bits d r = read_ctrl_bits (d &&& 0x1F) r ∧
    write_ctrl_bits d r = write_ctrl_bits (d &&& 0x1F) r ∧
    read_ctrl_bits d r = read_ctrl_bits d (r &&& 0x1F) ∧
    write_ctrl_bits d r = write_ctrl_bits d (r &&& 0x1F) := by
  refine ⟨?_, ?_, ?_, ?_⟩ <;>
    simp [read_ctrl_bits, write_ctrl_bits, phy_addr_ctrl_bits, reg_addr_ctrl_bits,
      Nat.and_assoc]

/-- C8: in both control words the device address occupies the 5 bits at
offset 7 and the register address the 5 bits at offset 2: shifting and
masking recovers the addresses. -/
theorem C8_addr_fields_roundtrip (d r : Nat) (hd : d < 32) (hr : r < 32) :
    (read_ctrl_bits d r >>> 7) &&& 31 = d ∧ (read_ctrl_bits d r >>> 2) &&& 31 = r ∧
    (write_ctrl_bits d r >>> 7) &&& 31 = d ∧ (write_ctrl_bits d r >>> 2) &&& 31 = r := by
  have H : ∀ d < 32, ∀ r < 32,
      (read_ctrl_bits d r >>> 7) &&& 31 = d ∧ (read_ctrl_bits d r >>> 2) &&& 31 = r ∧
      (write_ctrl_bits d r >>> 7) &&& 31 = d ∧ (write_ctrl_bits d r >>> 2) &&& 31 = r := by
    decide
  exact H d hd r hr

theorem C8_addr_fields_roundtrip_witness :
    (1 : Nat) < 32 ∧ (2 : Nat) < 32 ∧ (read_ctrl_bits 1 2 >>> 7) &&& 31 = 1 :=
  ⟨by norm_num, by norm_num, (C8_addr_fields_roundtrip 1 2 (by norm_num) (by norm_num)).1⟩

/-- C9: `write_bits` clamps the caller-supplied count at 8: for any count
greater than 8 it behaves exactly like count 8, and the loop only ever
visits bit indices below 8, so no out-of-range bit position is used. -/
theorem C9_write_bits_count_clamped (env : Env S E) (byte count : Nat) (s : S)
    (h : 8 < count) :
    write_bits env byte count s = write_bits env byte 8 s ∧
    ∀ i ∈ List.range (min count 8), i < 8 := by
  constructor
  · rw [write_bits, write_bits, Nat.min_eq_right (by omega), Nat.min_eq_right (by omega)]
  · intro i hi
    rw [List.mem_range] at hi
    omega

theorem C9_write_bits_count_clamped_witness :
    8 < 1000 ∧
    write_bits traceEnv 0b10110000 1000 (initState fun _ => false) =
      write_bits traceEnv 0b10110000 8 (initState fun _ => false) :=
  ⟨by norm_num,
    (C9_write_bits_count_clamped traceEnv 0b10110000 1000
      (initState fun _ => false) (by norm_num)).1⟩

/-- C10: in any environment whose clock-pin set-low leaves the observed
clock level low, every successful clock pulse, preamble, read and write
terminates with the clock level low, because each of them performs a
set-low of the clock pin as its final line action. -/
theorem C10_clock_low_after_success (env : Env S E) (lvl : S → Bool)
    (hlow : MdcLowSpec env lvl) :
    (∀ s s', pulse_clock env s = .ok s' → lvl s' = false) ∧
    (∀ s s', preamble env s = .ok s' → lvl s' = false) ∧
    (∀ c s w s', read env c s = .ok (w, s') → lvl s' = false) ∧
    (∀ c d s s', write env c d s = .ok s' → lvl s' = false) :=
  ⟨pulse_clock_low env lvl hlow, preamble_low env lvl hlow,
    read_low env lvl hlow, write_low env lvl hlow⟩

theorem C10_clock_low_after_success_witness :
    (okReadState (read traceEnv 0 (initState fun _ => false))).mdcLevel = false := by
  have hlow : MdcLowSpec traceEnv TrState.mdcLevel := by
    intro s s' h
    rw [traceEnv_mdcSetLow] at h
    cases h
    rfl
  have h := (C10_clock_low_after_success traceEnv TrState.mdcLevel hlow).2.2.1
    0 (initState fun _ => false)
  cases hr : read traceEnv 0 (initState fun _ => false) with
  | error e => exact e.elim
  | ok p =>
    have hl := h p.1 p.2 (by rw [hr])
    simpa [okReadState, hr] using hl

end MdioModel
